import Mathlib

set_option autoImplicit false

/-
  Verification development for the ustr universal string conversion library
  (header ustr.h).  Strings are modelled as lists of byte values (Nat),
  rendered text likewise.  The quoting codec, the SFINAE dispatch engine and
  the format_context registry are embedded as executable Lean functions.
-/

namespace Ustr

/-! ## Quoting / escaping codec (ustr::quoted_str) -/

-- Constants from ustr::details (DEFAULT_QUOTATION_*).
def DEFAULT_QUOTATION_DELIMITER : Nat := 34

def DEFAULT_QUOTATION_ESCAPE_CHAR : Nat := 92

def DEFAULT_QUOTATION_IS_UTF8 : Bool := false

/-- BOM skipping of quoted_str: if the input starts with 0xEF 0xBB 0xBF
(and hence has length at least 3) the scan starts at position 3. -/
def stripBOM : List Nat → List Nat
  | 0xEF :: 0xBB :: 0xBF :: rest => rest
  | s => s

/-- Number of bytes the utf8 branch of quoted_str attributes to a lead byte:
110xxxxx gives 2, 1110xxxx gives 3, 11110xxx gives 4, anything else 1. -/
def utf8ByteCount (c : Nat) : Nat :=
  if c &&& 0xE0 = 0xC0 then 2
  else if c &&& 0xF0 = 0xE0 then 3
  else if c &&& 0xF8 = 0xF0 then 4
  else 1

/-- The ASCII-only escape loop of quoted_str: each byte equal to either
delimiter or to the escape byte is preceded by the escape byte. -/
def escapeAscii (d1 d2 e : Nat) : List Nat → List Nat
  | [] => []
  | c :: rest =>
      (if c = d1 ∨ c = d2 ∨ c = e then [e, c] else [c]) ++ escapeAscii d1 d2 e rest

/-- The utf8-aware escape loop of quoted_str.  A byte at or above 0x80 is a
lead byte: the declared number of bytes is copied through verbatim (bounded
by the end of the input) and scanning resumes after them; bytes below 0x80
are escaped exactly as in the ASCII loop.  The fuel argument bounds the
number of loop iterations; since every iteration consumes at least one byte,
fuel equal to the length of the input is always sufficient. -/
def escapeUtf8Aux (d1 d2 e : Nat) : Nat → List Nat → List Nat
  | 0, _ => []
  | _, [] => []
  | fuel + 1, c :: rest =>
      if 0x80 ≤ c then
        (c :: rest).take (utf8ByteCount c) ++
          escapeUtf8Aux d1 d2 e fuel ((c :: rest).drop (utf8ByteCount c))
      else
        (if c = d1 ∨ c = d2 ∨ c = e then [e, c] else [c]) ++
          escapeUtf8Aux d1 d2 e fuel rest

def escapeUtf8 (d1 d2 e : Nat) (s : List Nat) : List Nat :=
  escapeUtf8Aux d1 d2 e s.length s

/-- Body processing of quoted_str after the BOM skip: with a zero escape
byte the input is copied verbatim, otherwise the utf8 or ASCII escape loop
runs according to the is_utf8 flag. -/
def encodeBody (d1 d2 e : Nat) (is_utf8 : Bool) (s : List Nat) : List Nat :=
  if e ≠ 0 then
    (if is_utf8 then escapeUtf8 d1 d2 e s else escapeAscii d1 d2 e s)
  else s

/-- ustr::quoted_str: opening delimiter, then the escaped body of the input
with a leading BOM dropped, then the closing delimiter. -/
def quoted_str (s : List Nat) (start_delim end_delim escape : Nat)
    (is_utf8 : Bool) : List Nat :=
  start_delim :: encodeBody start_delim end_delim escape is_utf8 (stripBOM s) ++ [end_delim]

/-- Spec-side scanner: reading left to right with a flag telling whether the
current byte is escaped, no unescaped occurrence of either delimiter shows
up.  The flag is set after an unescaped escape byte. -/
def scanUnescaped (d1 d2 e : Nat) : Bool → List Nat → Bool
  | _, [] => true
  | true, _ :: rest => scanUnescaped d1 d2 e false rest
  | false, c :: rest =>
      if c = e then scanUnescaped d1 d2 e true rest
      else (decide (c ≠ d1) && decide (c ≠ d2)) && scanUnescaped d1 d2 e false rest

/-- A body is well escaped when the scan starting in unescaped state never
meets a bare delimiter. -/
def noUnescapedDelims (d1 d2 e : Nat) (s : List Nat) : Bool :=
  scanUnescaped d1 d2 e false s

/-! ## Static type model for the dispatch engine

A C++ static type is represented by the information the traits of ustr.h
inspect.  A user-defined class type carries the outcome of the SFINAE
detections performed on it. -/

/-- Capabilities of a user-defined class type T: a numeric identity
(typeid), whether a zero-argument to_string method is detected, whether a
full specialization of details::to_string_impl together with the
has_custom_specialization marker is registered for T, whether members named
first and second are detected, and whether operator output to an ostream is
available.  The modelled class types have no cbegin/cend members. -/
structure ClassInfo where
  tid : Nat
  hasToString : Bool
  hasCustom : Bool
  hasFirstSecond : Bool
  streamable : Bool
deriving DecidableEq, Repr

/-- Static types: the fixed special types, arithmetic int, enumerations
(identified by a numeric typeid), std::pair, std::tuple (element types
identified by a numeric typeid), C arrays, container types with cbegin/cend
members, and user-defined classes. -/
inductive TypeId where
  | strT
  | cstrT
  | boolT
  | charT
  | scharT
  | ucharT
  | nullT
  | sviewT
  | intT
  | enumT (tid : Nat)
  | pairT (a b : TypeId)
  | tupleT (tid : Nat)
  | arrT (t : TypeId)
  | contT (t : TypeId)
  | clsT (info : ClassInfo)
deriving DecidableEq, Repr

/-- ustr::details::is_special_type: bool, the char family, std::string,
the C string pointer types, nullptr_t and std::string_view. -/
def is_special_type : TypeId → Bool
  | .strT | .cstrT | .boolT | .charT | .scharT | .ucharT | .nullT | .sviewT => true
  | _ => false

/-- ustr::has_to_string: detection of a zero-argument to_string method.
None of the built-in types has one. -/
def has_to_string : TypeId → Bool
  | .clsT info => info.hasToString
  | _ => false

/-- ustr::is_numeric: arithmetic, excluding bool and the char family. -/
def is_numeric : TypeId → Bool
  | .intT => true
  | _ => false

/-- ustr::is_enum. -/
def is_enum : TypeId → Bool
  | .enumT _ => true
  | _ => false

/-- ustr::details::is_pair: exact std::pair instantiations only. -/
def is_pair : TypeId → Bool
  | .pairT _ _ => true
  | _ => false

/-- ustr::is_tuple: exact std::tuple instantiations only. -/
def is_tuple : TypeId → Bool
  | .tupleT _ => true
  | _ => false

/-- ustr::is_c_array: C arrays with a non-char element type. -/
def is_c_array : TypeId → Bool
  | .arrT _ => true
  | _ => false

/-- ustr::has_cbegin_cend: containers; std::string and std::string_view
also expose cbegin/cend. -/
def has_cbegin_cend : TypeId → Bool
  | .contT _ => true
  | .strT => true
  | .sviewT => true
  | _ => false

/-- ustr::is_streamable: availability of stream output.  The built-in
value types stream; pairs, tuples, arrays and containers have no inserter;
for class types it is the detected capability. -/
def is_streamable : TypeId → Bool
  | .strT | .cstrT | .boolT | .charT | .scharT | .ucharT | .sviewT | .intT | .enumT _ => true
  | .clsT info => info.streamable
  | _ => false

/-- ustr::details::has_first_second: members named first and second are
detected; true for std::pair and for class types that declare them. -/
def has_first_second : TypeId → Bool
  | .pairT _ _ => true
  | .clsT info => info.hasFirstSecond
  | _ => false

/-- ustr::has_custom_specialization together with a registered full
specialization of details::to_string_impl. -/
def has_custom_specialization : TypeId → Bool
  | .clsT info => info.hasCustom
  | _ => false

/-- ustr::is_quotable_string: std::string, the C string pointer types
and std::string_view. -/
def is_quotable_string : TypeId → Bool
  | .strT | .cstrT | .sviewT => true
  | _ => false

/-- The predicate values the overload set of details::to_string_impl
inspects for one type. -/
structure TypeFlags where
  hasToString : Bool
  isSpecial : Bool
  isNumeric : Bool
  isEnum : Bool
  isPair : Bool
  isTuple : Bool
  isCArray : Bool
  hasIter : Bool
  isStream : Bool
  hasCustom : Bool
deriving DecidableEq, Repr

def flagsOf (t : TypeId) : TypeFlags :=
  { hasToString := has_to_string t
    isSpecial := is_special_type t
    isNumeric := is_numeric t
    isEnum := is_enum t
    isPair := is_pair t
    isTuple := is_tuple t
    isCArray := is_c_array t
    hasIter := has_cbegin_cend t
    isStream := is_streamable t
    hasCustom := has_custom_specialization t }

/-- The mutually exclusive conversion strategies of the engine. -/
inductive Strategy where
  | primitive
  | custom
  | explicitMethod
  | numeric
  | enumeration
  | pairFmt
  | tupleFmt
  | arrayFmt
  | containerFmt
  | stream
  | fallback
deriving DecidableEq, Repr

/-- Overload resolution of details::to_string_impl.  The non-template
overloads for the special types are exact matches and beat every template
(each template also repeats the is_special_type exclusion); a registered
full specialization replaces the body of the unique template whose
enable_if condition holds, so a non-special type with a registered custom
specialization renders through it whatever else it supports; otherwise the
pairwise exclusive enable_if conditions of the templates reduce to this
priority chain. -/
def selectStrategy (f : TypeFlags) : Strategy :=
  if f.isSpecial then .primitive
  else if f.hasCustom then .custom
  else if f.hasToString then .explicitMethod
  else if f.isNumeric then .numeric
  else if f.isEnum then .enumeration
  else if f.isPair then .pairFmt
  else if f.isTuple then .tupleFmt
  else if f.isCArray then .arrayFmt
  else if f.hasIter then .containerFmt
  else if f.isStream then .stream
  else .fallback

/-! ## Values -/

/-- Values of the modelled static types.  A class value carries the
renderings its capabilities would produce (result of its to_string method,
of its registered custom specialization, of streaming it, and the
type-name/address fallback text) together with the values of its first and
second members (meaningful when hasFirstSecond is detected).  Arrays,
containers and tuples record the static element type information used by
the dispatch. -/
inductive Val where
  | vStr (s : List Nat)
  | vCStr (s : Option (List Nat))
  | vBool (b : Bool)
  | vChar (c : Nat)
  | vSChar (c : Nat)
  | vUChar (c : Nat)
  | vNull
  | vSView (s : List Nat)
  | vInt (n : Int)
  | vEnum (tid : Nat) (n : Int)
  | vPair (a b : Val)
  | vTuple (tid : Nat) (xs : List Val)
  | vArr (et : TypeId) (xs : List Val)
  | vCont (et : TypeId) (xs : List Val)
  | vCls (info : ClassInfo) (tsRes custRes streamRes fbRes : List Nat) (fstM sndM : Val)

/-- Static type of a value. -/
def typeOf : Val → TypeId
  | .vStr _ => .strT
  | .vCStr _ => .cstrT
  | .vBool _ => .boolT
  | .vChar _ => .charT
  | .vSChar _ => .scharT
  | .vUChar _ => .ucharT
  | .vNull => .nullT
  | .vSView _ => .sviewT
  | .vInt _ => .intT
  | .vEnum tid _ => .enumT tid
  | .vPair a b => .pairT (typeOf a) (typeOf b)
  | .vTuple tid _ => .tupleT tid
  | .vArr et _ => .arrT et
  | .vCont et _ => .contT et
  | .vCls info _ _ _ _ _ _ => .clsT info

/-! ## Decimal rendering (std::to_string on integers) -/

def natDigitsAux : Nat → Nat → List Nat
  | 0, _ => []
  | fuel + 1, n => if n < 10 then [48 + n] else natDigitsAux fuel (n / 10) ++ [48 + n % 10]

/-- Decimal digits of a natural number as ASCII bytes. -/
def natDecimal (n : Nat) : List Nat :=
  natDigitsAux (n + 1) n

/-- std::to_string on a (signed) integer value. -/
def intDecimal : Int → List Nat
  | .ofNat n => natDecimal n
  | .negSucc m => 45 :: natDecimal (m + 1)

def commaSep : List Nat := [44, 32]

def nullBytes : List Nat := [110, 117, 108, 108]

def trueBytes : List Nat := [116, 114, 117, 101]

def falseBytes : List Nat := [102, 97, 108, 115, 101]

/-! ## The dispatch resolution engine (ustr::to_string) -/

mutual

/-- details::to_string_impl and the overloads it dispatches to.  The
special types go to their exact-match overloads; pairs, tuples, arrays and
containers render structurally, quoting each nested element whose own
static type is a quotable string; class types follow the resolved
overload, with a registered custom specialization replacing its body. -/
def to_string_impl : Val → List Nat
  | .vStr s => s
  | .vCStr (some s) => s
  | .vCStr none => nullBytes
  | .vBool b => if b then trueBytes else falseBytes
  | .vChar c => [c]
  | .vSChar c => [c]
  | .vUChar c => [c]
  | .vNull => nullBytes
  | .vSView s => s
  | .vInt n => intDecimal n
  | .vEnum _ n => intDecimal n
  | .vPair a b =>
      40 :: (apply_quotation_if_needed a ++ commaSep ++ apply_quotation_if_needed b) ++ [41]
  | .vTuple _ xs => 40 :: List.intercalate commaSep (quotedElems xs) ++ [41]
  | .vArr _ xs => 91 :: List.intercalate commaSep (quotedElems xs) ++ [93]
  | .vCont et xs =>
      if has_first_second et then
        123 :: List.intercalate commaSep (quotedKeyValues xs) ++ [125]
      else
        91 :: List.intercalate commaSep (quotedElems xs) ++ [93]
  | .vCls info ts cu st fb _ _ =>
      if info.hasCustom then cu
      else if info.hasToString then ts
      else if info.streamable then st
      else fb

/-- details::apply_quotation_if_needed: wrap the rendering between the
default delimiters when the static type of the value is a quotable
string. -/
def apply_quotation_if_needed (v : Val) : List Nat :=
  if is_quotable_string (typeOf v) then
    quoted_str (to_string_impl v) DEFAULT_QUOTATION_DELIMITER DEFAULT_QUOTATION_DELIMITER
      DEFAULT_QUOTATION_ESCAPE_CHAR DEFAULT_QUOTATION_IS_UTF8
  else to_string_impl v

/-- Element renderings of the iterator-based to_string in array shape. -/
def quotedElems : List Val → List (List Nat)
  | [] => []
  | v :: rest => apply_quotation_if_needed v :: quotedElems rest

/-- Element renderings of the iterator-based to_string in map shape: each
element contributes its first member, a colon and space, and its second
member (the static element type has detected first/second members; other
value shapes cannot occur there and render as themselves). -/
def quotedKeyValues : List Val → List (List Nat)
  | [] => []
  | .vPair a b :: rest =>
      (apply_quotation_if_needed a ++ [58, 32] ++ apply_quotation_if_needed b) ::
        quotedKeyValues rest
  | .vCls info ts cu st fb f s :: rest =>
      (apply_quotation_if_needed f ++ [58, 32] ++ apply_quotation_if_needed s) ::
        quotedKeyValues rest
  | v :: rest => apply_quotation_if_needed v :: quotedKeyValues rest

end

/-- The iterator-based public entry point ustr::to_string(begin, end):
the shape is decided once from the static element type, map shape with
braces when first/second members are detected, array shape with brackets
otherwise. -/
def to_string_iter (et : TypeId) (xs : List Val) : List Nat :=
  if has_first_second et then
    123 :: List.intercalate commaSep (quotedKeyValues xs) ++ [125]
  else
    91 :: List.intercalate commaSep (quotedElems xs) ++ [93]

/-! ## format_context (the scoped override registry) -/

/-- The registry state: the entries of the std::map from type_index to the
type-erased formatter, here an association list keyed by the static type. -/
structure FormatContext where
  formatters : List (TypeId × (Val → List Nat))

/-- map assignment formatters_[idx] = f: replace the entry of an existing
key in place, otherwise append a fresh entry. -/
def setEntry (t : TypeId) (f : Val → List Nat) :
    List (TypeId × (Val → List Nat)) → List (TypeId × (Val → List Nat))
  | [] => [(t, f)]
  | (k, g) :: rest => if k = t then (t, f) :: rest else (k, g) :: setEntry t f rest

/-- map erase: drop the entry of the key when present. -/
def removeEntry (t : TypeId) :
    List (TypeId × (Val → List Nat)) → List (TypeId × (Val → List Nat))
  | [] => []
  | (k, g) :: rest => if k = t then rest else (k, g) :: removeEntry t rest

/-- map find. -/
def findEntry (t : TypeId) :
    List (TypeId × (Val → List Nat)) → Option (Val → List Nat)
  | [] => none
  | (k, g) :: rest => if k = t then some g else findEntry t rest

/-- A freshly constructed format_context has an empty map. -/
def FormatContext.empty : FormatContext := ⟨[]⟩

/-- format_context::set_formatter. -/
def FormatContext.set (ctx : FormatContext) (t : TypeId) (f : Val → List Nat) :
    FormatContext :=
  ⟨setEntry t f ctx.formatters⟩

/-- format_context::has_formatter. -/
def FormatContext.hasFormatter (ctx : FormatContext) (t : TypeId) : Bool :=
  (findEntry t ctx.formatters).isSome

/-- format_context::remove_formatter. -/
def FormatContext.removeFmt (ctx : FormatContext) (t : TypeId) : FormatContext :=
  ⟨removeEntry t ctx.formatters⟩

/-- format_context::clear. -/
def FormatContext.clear (_ : FormatContext) : FormatContext := ⟨[]⟩

/-- format_context::to_string: a formatter registered for the exact static
type of the value is invoked and its result returned verbatim; otherwise
the call falls back to the global ustr::to_string. -/
def FormatContext.toString (ctx : FormatContext) (v : Val) : List Nat :=
  match findEntry (typeOf v) ctx.formatters with
  | some f => f v
  | none => to_string_impl v

end Ustr

namespace Ustr

/-! ## Helper lemmas -/

theorem scan_escapeAscii (d1 d2 e : Nat) (s : List Nat) :
    scanUnescaped d1 d2 e false (escapeAscii d1 d2 e s) = true := by
  induction s with
  | nil => rfl
  | cons c rest ih =>
      by_cases h : c = d1 ∨ c = d2 ∨ c = e
      · rw [escapeAscii, if_pos h]
        simp only [List.cons_append, List.nil_append]
        rw [show scanUnescaped d1 d2 e false (e :: c :: escapeAscii d1 d2 e rest) =
              scanUnescaped d1 d2 e true (c :: escapeAscii d1 d2 e rest) by
            simp [scanUnescaped]]
        rw [show scanUnescaped d1 d2 e true (c :: escapeAscii d1 d2 e rest) =
              scanUnescaped d1 d2 e false (escapeAscii d1 d2 e rest) by
            simp [scanUnescaped]]
        exact ih
      · push_neg at h
        obtain ⟨h1, h2, h3⟩ := h
        rw [escapeAscii, if_neg (by simp [h1, h2, h3])]
        simp [scanUnescaped, h1, h2, h3, ih]

theorem escapeAscii_eq_flatMap (d1 d2 e : Nat) (s : List Nat) :
    escapeAscii d1 d2 e s =
      s.flatMap (fun c => if c = d1 ∨ c = d2 ∨ c = e then [e, c] else [c]) := by
  induction s with
  | nil => rfl
  | cons c rest ih => simp [escapeAscii, ih]

theorem escapeUtf8Aux_nil (d1 d2 e fuel : Nat) :
    escapeUtf8Aux d1 d2 e fuel [] = [] := by
  cases fuel <;> rfl

/-! ## Claim theorems: quoting codec -/

/-- C3 (counterexample): with utf8 scanning enabled and a nonzero escape
byte, the input consisting of the invalid lead byte 0xC2 followed by the
delimiter byte 34 is copied through as a declared two-byte sequence, so the
body of the output contains an unescaped occurrence of the delimiter. -/
theorem utf8_mode_unescaped_delim_cex :
    (92 : Nat) ≠ 0 ∧
    quoted_str [0xC2, 34] 34 34 92 true = 34 :: [0xC2, 34] ++ [34] ∧
    noUnescapedDelims 34 34 92 [0xC2, 34] = false := by
  decide

/-- C3 (amended): for every input, every pair of delimiters and every
nonzero escape byte, with utf8 scanning disabled quoted_str begins with the
start delimiter, ends with the end delimiter, its body is the input body
(after BOM stripping) with every occurrence of either delimiter or of the
escape byte prefixed with one escape byte, and that body contains no
unescaped occurrence of either delimiter. -/
theorem quoted_str_escaping_ascii_mode (s : List Nat) (d1 d2 e : Nat) (he : e ≠ 0) :
    quoted_str s d1 d2 e false = d1 :: escapeAscii d1 d2 e (stripBOM s) ++ [d2] ∧
    escapeAscii d1 d2 e (stripBOM s) =
      (stripBOM s).flatMap (fun c => if c = d1 ∨ c = d2 ∨ c = e then [e, c] else [c]) ∧
    noUnescapedDelims d1 d2 e (escapeAscii d1 d2 e (stripBOM s)) = true := by
  refine ⟨?_, escapeAscii_eq_flatMap d1 d2 e (stripBOM s),
    scan_escapeAscii d1 d2 e (stripBOM s)⟩
  simp [quoted_str, encodeBody, he]

theorem quoted_str_escaping_ascii_mode_witness :
    (92 : Nat) ≠ 0 ∧
    (quoted_str [97, 34, 98] 34 34 92 false =
        34 :: escapeAscii 34 34 92 (stripBOM [97, 34, 98]) ++ [34] ∧
      escapeAscii 34 34 92 (stripBOM [97, 34, 98]) =
        (stripBOM [97, 34, 98]).flatMap
          (fun c => if c = 34 ∨ c = 34 ∨ c = 92 then [92, c] else [c]) ∧
      noUnescapedDelims 34 34 92 (escapeAscii 34 34 92 (stripBOM [97, 34, 98])) = true) :=
  ⟨by decide, quoted_str_escaping_ascii_mode [97, 34, 98] 34 34 92 (by decide)⟩

/-- C8: a leading UTF-8 byte-order mark 0xEF 0xBB 0xBF is dropped before
quoting in every mode (any escape byte, any utf8 flag), and on the
documented example the output carries no BOM bytes. -/
theorem quoted_str_strips_bom (s : List Nat) (d1 d2 e : Nat) (u : Bool) :
    quoted_str (0xEF :: 0xBB :: 0xBF :: s) d1 d2 e u =
      d1 :: encodeBody d1 d2 e u s ++ [d2] ∧
    quoted_str ([0xEF, 0xBB, 0xBF] ++ [72, 101, 108, 108, 111]) 34 34 92 false =
      [34, 72, 101, 108, 108, 111, 34] := by
  exact ⟨rfl, by decide⟩

/-- C9: quoted_str is total and in-bounds on every byte sequence: the
result is always the body wrapped between the two delimiters, and a
multi-byte lead byte whose declared length exceeds the remaining input
makes the utf8 scan copy exactly the remaining bytes and stop. -/
theorem quoted_str_total_on_truncated_utf8 (s : List Nat) (d1 d2 e : Nat) (u : Bool)
    (c : Nat) (rest : List Nat) (hc : 0x80 ≤ c)
    (hlen : rest.length + 1 ≤ utf8ByteCount c) :
    quoted_str s d1 d2 e u = d1 :: encodeBody d1 d2 e u (stripBOM s) ++ [d2] ∧
    escapeUtf8 d1 d2 e (c :: rest) = c :: rest := by
  refine ⟨rfl, ?_⟩
  have hlen2 : (c :: rest).length ≤ utf8ByteCount c := by
    simpa using hlen
  rw [escapeUtf8]
  simp only [List.length_cons]
  rw [escapeUtf8Aux, if_pos hc, List.take_of_length_le hlen2,
    List.drop_eq_nil_of_le hlen2, escapeUtf8Aux_nil, List.append_nil]

theorem quoted_str_total_on_truncated_utf8_witness :
    (0x80 ≤ 0xE0 ∧ List.length [65] + 1 ≤ utf8ByteCount 0xE0) ∧
    (quoted_str [97] 34 34 92 true = 34 :: encodeBody 34 34 92 true (stripBOM [97]) ++ [34] ∧
      escapeUtf8 34 34 92 (0xE0 :: [65]) = 0xE0 :: [65]) :=
  ⟨by decide, quoted_str_total_on_truncated_utf8 [97] 34 34 92 true 0xE0 [65]
    (by decide) (by decide)⟩

/-! ## Claim theorems: dispatch resolution engine -/

/-- C1: a non-special type carrying the has_custom_specialization marker
with a registered custom renderer converts through the custom renderer,
whatever else it supports (in particular even when a to_string method is
detected on it): the custom override outranks every non-primitive
strategy. -/
theorem custom_override_supremacy (info : ClassInfo) (ts cu st fb : List Nat)
    (f s : Val) (hcustom : info.hasCustom = true) :
    to_string_impl (.vCls info ts cu st fb f s) = cu ∧
    selectStrategy (flagsOf (.clsT info)) = .custom ∧
    (∀ fl : TypeFlags, fl.isSpecial = false → fl.hasCustom = true →
      selectStrategy fl = .custom) := by
  refine ⟨?_, ?_, ?_⟩
  · simp [to_string_impl, hcustom]
  · simp [selectStrategy, flagsOf, is_special_type, has_custom_specialization, hcustom]
  · intro fl h1 h2
    simp [selectStrategy, h1, h2]

theorem custom_override_supremacy_witness :
    (ClassInfo.mk 7 true true false true).hasCustom = true ∧
    (to_string_impl (.vCls ⟨7, true, true, false, true⟩ [109] [99] [115] [102]
        Val.vNull Val.vNull) = [99] ∧
      selectStrategy (flagsOf (.clsT ⟨7, true, true, false, true⟩)) = .custom ∧
      (∀ fl : TypeFlags, fl.isSpecial = false → fl.hasCustom = true →
        selectStrategy fl = .custom)) :=
  ⟨rfl, custom_override_supremacy ⟨7, true, true, false, true⟩ [109] [99] [115] [102]
    Val.vNull Val.vNull rfl⟩

/-- C2: every special type (string, C string, bool, char family, nullptr,
string_view) resolves to the primitive strategy even when the
explicit-method predicate holds, and the primitive renderings are string
passthrough, null for a null C string pointer, true/false, the single
character, and null for nullptr. -/
theorem special_types_render_primitive (fl : TypeFlags) (s : List Nat) (b : Bool)
    (c : Nat) (hsp : fl.isSpecial = true) :
    selectStrategy fl = .primitive ∧
    (∀ t : TypeId, is_special_type t = true → selectStrategy (flagsOf t) = .primitive) ∧
    to_string_impl (.vStr s) = s ∧
    to_string_impl (.vCStr (some s)) = s ∧
    to_string_impl (.vCStr none) = nullBytes ∧
    to_string_impl (.vBool b) = (if b then trueBytes else falseBytes) ∧
    to_string_impl (.vChar c) = [c] ∧
    to_string_impl (.vSChar c) = [c] ∧
    to_string_impl (.vUChar c) = [c] ∧
    to_string_impl Val.vNull = nullBytes ∧
    to_string_impl (.vSView s) = s := by
  refine ⟨by simp [selectStrategy, hsp], ?_, ?_, ?_, ?_, ?_, ?_, ?_, ?_, ?_, ?_⟩
  · intro t ht
    simp [selectStrategy, flagsOf, ht]
  all_goals simp [to_string_impl]

theorem special_types_render_primitive_witness :
    (TypeFlags.mk true true false false false false false false true false).isSpecial
        = true ∧
    (selectStrategy ⟨true, true, false, false, false, false, false, false, true, false⟩
        = .primitive ∧
      (∀ t : TypeId, is_special_type t = true →
        selectStrategy (flagsOf t) = .primitive) ∧
      to_string_impl (.vStr [104, 105]) = [104, 105] ∧
      to_string_impl (.vCStr (some [104, 105])) = [104, 105] ∧
      to_string_impl (.vCStr none) = nullBytes ∧
      to_string_impl (.vBool true) = (if true then trueBytes else falseBytes) ∧
      to_string_impl (.vChar 65) = [65] ∧
      to_string_impl (.vSChar 65) = [65] ∧
      to_string_impl (.vUChar 65) = [65] ∧
      to_string_impl Val.vNull = nullBytes ∧
      to_string_impl (.vSView [104, 105]) = [104, 105]) :=
  ⟨rfl, special_types_render_primitive
    ⟨true, true, false, false, false, false, false, false, true, false⟩
    [104, 105] true 65 rfl⟩

/-- C5: an enumeration type (with no to_string method and no custom
override, which enumerations never have) renders as the decimal text of
its underlying integer value, never a symbolic name: the enumerator with
value 20 renders as the two bytes of the digits 2 and 0, and a negative
value keeps its sign. -/
theorem enum_renders_underlying_value (tid : Nat) (n : Int) :
    to_string_impl (.vEnum tid n) = intDecimal n ∧
    selectStrategy (flagsOf (.enumT tid)) = .enumeration ∧
    to_string_impl (.vEnum 0 20) = [50, 48] ∧
    to_string_impl (.vEnum 0 (-10)) = [45, 49, 48] := by
  refine ⟨by simp [to_string_impl], ?_, ?_, ?_⟩
  · simp [selectStrategy, flagsOf, is_special_type, has_custom_specialization,
      has_to_string, is_numeric, is_enum]
  all_goals
    simp only [to_string_impl]
    decide

/-- C4: a nested element is wrapped in double quotes exactly when its own
static type is a quotable string: the pair of the string key and the int 5
renders as a parenthesized pair with the key quoted and the number bare,
a range of string-to-string pairs quotes key and value, and a range of
int-to-string pairs leaves the key unquoted while quoting the value. -/
theorem quoting_nesting_rule :
    (∀ v : Val, apply_quotation_if_needed v =
      (if is_quotable_string (typeOf v) then
        quoted_str (to_string_impl v) 34 34 92 false
      else to_string_impl v)) ∧
    to_string_impl (.vPair (.vStr [107, 101, 121]) (.vInt 5)) =
      [40, 34, 107, 101, 121, 34, 44, 32, 53, 41] ∧
    to_string_impl (.vCont (.pairT .strT .strT) [.vPair (.vStr [107]) (.vStr [118])]) =
      [123, 34, 107, 34, 58, 32, 34, 118, 34, 125] ∧
    to_string_impl (.vCont (.pairT .intT .strT) [.vPair (.vInt 1) (.vStr [118])]) =
      [123, 49, 58, 32, 34, 118, 34, 125] := by
  refine ⟨?_, ?_, ?_, ?_⟩
  · intro v
    simp [apply_quotation_if_needed, DEFAULT_QUOTATION_DELIMITER,
      DEFAULT_QUOTATION_ESCAPE_CHAR, DEFAULT_QUOTATION_IS_UTF8]
  all_goals
    simp [to_string_impl, apply_quotation_if_needed, quotedKeyValues, quotedElems, typeOf,
      is_quotable_string, has_first_second, quoted_str, stripBOM, encodeBody, escapeAscii,
      intDecimal, natDecimal, natDigitsAux, commaSep, List.intercalate,
      DEFAULT_QUOTATION_DELIMITER, DEFAULT_QUOTATION_ESCAPE_CHAR, DEFAULT_QUOTATION_IS_UTF8]

/-- C10: the pair strategy fires for exact std::pair only, while range
rendering keys on detected first/second members: a class type with
first/second members (no to_string method, no custom override) does not
render as a parenthesized pair but falls through to the stream or fallback
strategy, yet a range whose static element type is that class renders each
element as key, colon, value inside braces. -/
theorem pair_exact_vs_first_second_range (info : ClassInfo) (ts cu st fb : List Nat)
    (f s : Val) (hfs : info.hasFirstSecond = true) (hts : info.hasToString = false)
    (hcu : info.hasCustom = false) :
    is_pair (.clsT info) = false ∧
    to_string_impl (.vCls info ts cu st fb f s) = (if info.streamable then st else fb) ∧
    selectStrategy (flagsOf (.clsT info)) =
      (if info.streamable then .stream else .fallback) ∧
    to_string_impl (.vCont (.clsT info) [.vCls info ts cu st fb f s]) =
      123 :: (apply_quotation_if_needed f ++ [58, 32] ++ apply_quotation_if_needed s)
        ++ [125] := by
  refine ⟨rfl, ?_, ?_, ?_⟩
  · simp [to_string_impl, hts, hcu]
  · cases hstr : info.streamable <;>
      simp [selectStrategy, flagsOf, is_special_type, has_custom_specialization,
        has_to_string, is_numeric, is_enum, is_pair, is_tuple, is_c_array,
        has_cbegin_cend, is_streamable, hts, hcu, hstr]
  · simp [to_string_impl, quotedKeyValues, has_first_second, hfs, commaSep,
      List.intercalate]

theorem pair_exact_vs_first_second_range_witness :
    ((ClassInfo.mk 3 false false true true).hasFirstSecond = true ∧
      (ClassInfo.mk 3 false false true true).hasToString = false ∧
      (ClassInfo.mk 3 false false true true).hasCustom = false) ∧
    (is_pair (.clsT ⟨3, false, false, true, true⟩) = false ∧
      to_string_impl (.vCls ⟨3, false, false, true, true⟩ [109] [99] [115] [102]
          (.vInt 1) (.vStr [118])) =
        (if (ClassInfo.mk 3 false false true true).streamable then [115] else [102]) ∧
      selectStrategy (flagsOf (.clsT ⟨3, false, false, true, true⟩)) =
        (if (ClassInfo.mk 3 false false true true).streamable then .stream
          else .fallback) ∧
      to_string_impl (.vCont (.clsT ⟨3, false, false, true, true⟩)
          [.vCls ⟨3, false, false, true, true⟩ [109] [99] [115] [102]
            (.vInt 1) (.vStr [118])]) =
        123 :: (apply_quotation_if_needed (.vInt 1) ++ [58, 32] ++
          apply_quotation_if_needed (.vStr [118])) ++ [125]) :=
  ⟨⟨rfl, rfl, rfl⟩, pair_exact_vs_first_second_range ⟨3, false, false, true, true⟩
    [109] [99] [115] [102] (.vInt 1) (.vStr [118]) rfl rfl rfl⟩

/-! ## Helper lemmas: the registry association list -/

theorem find_setEntry_self (t : TypeId) (f : Val → List Nat)
    (l : List (TypeId × (Val → List Nat))) :
    findEntry t (setEntry t f l) = some f := by
  induction l with
  | nil => simp [setEntry, findEntry]
  | cons p rest ih =>
      obtain ⟨k, g⟩ := p
      by_cases hk : k = t
      · simp [setEntry, hk, findEntry]
      · simp [setEntry, hk, findEntry, ih]

theorem find_setEntry_ne (t t2 : TypeId) (f : Val → List Nat)
    (l : List (TypeId × (Val → List Nat))) (h : t2 ≠ t) :
    findEntry t2 (setEntry t f l) = findEntry t2 l := by
  induction l with
  | nil => simp [setEntry, findEntry, Ne.symm h]
  | cons p rest ih =>
      obtain ⟨k, g⟩ := p
      by_cases hk : k = t
      · subst hk
        simp [setEntry, findEntry, Ne.symm h]
      · simp [setEntry, hk, findEntry, ih]

theorem mem_keys_setEntry {t a : TypeId} {f : Val → List Nat}
    {l : List (TypeId × (Val → List Nat))}
    (h : a ∈ (setEntry t f l).map Prod.fst) :
    a = t ∨ a ∈ l.map Prod.fst := by
  induction l with
  | nil => simpa [setEntry] using h
  | cons p rest ih =>
      obtain ⟨k, g⟩ := p
      by_cases hk : k = t
      · simp only [setEntry, if_pos hk, List.map_cons, List.mem_cons] at h
        rcases h with h | h
        · exact Or.inl h
        · exact Or.inr (by simp [h])
      · simp only [setEntry, if_neg hk, List.map_cons, List.mem_cons] at h
        rcases h with h | h
        · exact Or.inr (by simp [h])
        · rcases ih h with h2 | h2
          · exact Or.inl h2
          · exact Or.inr (by simp [h2])

theorem nodup_keys_setEntry (t : TypeId) (f : Val → List Nat)
    (l : List (TypeId × (Val → List Nat))) (h : (l.map Prod.fst).Nodup) :
    ((setEntry t f l).map Prod.fst).Nodup := by
  induction l with
  | nil => simp [setEntry]
  | cons p rest ih =>
      obtain ⟨k, g⟩ := p
      simp only [List.map_cons, List.nodup_cons] at h
      by_cases hk : k = t
      · subst hk
        simpa [setEntry] using h
      · simp only [setEntry, if_neg hk, List.map_cons, List.nodup_cons]
        refine ⟨?_, ih h.2⟩
        intro hmem
        rcases mem_keys_setEntry hmem with rfl | hmem2
        · exact hk rfl
        · exact h.1 hmem2

theorem keys_removeEntry_sublist (t : TypeId)
    (l : List (TypeId × (Val → List Nat))) :
    ((removeEntry t l).map Prod.fst).Sublist (l.map Prod.fst) := by
  induction l with
  | nil => simp [removeEntry]
  | cons p rest ih =>
      obtain ⟨k, g⟩ := p
      by_cases hk : k = t
      · simp only [removeEntry, if_pos hk, List.map_cons]
        exact List.sublist_cons_self _ _
      · simp only [removeEntry, if_neg hk, List.map_cons]
        exact ih.cons₂ k

theorem findEntry_eq_none_of_not_mem (t : TypeId)
    (l : List (TypeId × (Val → List Nat))) (h : t ∉ l.map Prod.fst) :
    findEntry t l = none := by
  induction l with
  | nil => rfl
  | cons p rest ih =>
      obtain ⟨k, g⟩ := p
      simp only [List.map_cons, List.mem_cons, not_or] at h
      rw [findEntry, if_neg (fun hk => h.1 hk.symm)]
      exact ih h.2

theorem removeEntry_eq_of_find_none (t : TypeId)
    (l : List (TypeId × (Val → List Nat))) (h : findEntry t l = none) :
    removeEntry t l = l := by
  induction l with
  | nil => rfl
  | cons p rest ih =>
      obtain ⟨k, g⟩ := p
      by_cases hk : k = t
      · rw [findEntry, if_pos hk] at h
        exact absurd h (by simp)
      · rw [findEntry, if_neg hk] at h
        rw [removeEntry, if_neg hk, ih h]

theorem find_removeEntry_self (t : TypeId)
    (l : List (TypeId × (Val → List Nat))) (h : (l.map Prod.fst).Nodup) :
    findEntry t (removeEntry t l) = none := by
  induction l with
  | nil => rfl
  | cons p rest ih =>
      obtain ⟨k, g⟩ := p
      simp only [List.map_cons, List.nodup_cons] at h
      by_cases hk : k = t
      · rw [removeEntry, if_pos hk]
        exact findEntry_eq_none_of_not_mem t rest (hk ▸ h.1)
      · rw [removeEntry, if_neg hk, findEntry, if_neg hk]
        exact ih h.2

/-! ## Claim theorems: format_context -/

/-- C7: the registry maps each type to at most one formatter (distinct
keys), and every operation preserves this: a fresh context has no
formatter, set_formatter on a present type replaces that entry and leaves
the other types untouched, remove_formatter preserves distinctness, is the
identity on an absent type and is idempotent, and clear leaves no
formatter. -/
theorem format_context_registry_invariants (ctx : FormatContext) (t t2 : TypeId)
    (f : Val → List Nat) (h : (ctx.formatters.map Prod.fst).Nodup) :
    FormatContext.empty.hasFormatter t2 = false ∧
    ((ctx.set t f).formatters.map Prod.fst).Nodup ∧
    findEntry t (ctx.set t f).formatters = some f ∧
    (t2 ≠ t → findEntry t2 (ctx.set t f).formatters = findEntry t2 ctx.formatters) ∧
    ((ctx.removeFmt t).formatters.map Prod.fst).Nodup ∧
    (ctx.hasFormatter t = false → ctx.removeFmt t = ctx) ∧
    (ctx.removeFmt t).removeFmt t = ctx.removeFmt t ∧
    (ctx.clear).hasFormatter t2 = false := by
  obtain ⟨l⟩ := ctx
  refine ⟨rfl, nodup_keys_setEntry t f l h, find_setEntry_self t f l,
    fun hne => find_setEntry_ne t t2 f l hne, (keys_removeEntry_sublist t l).nodup h,
    ?_, ?_, rfl⟩
  · intro habs
    have hnone : findEntry t l = none := by
      rcases hfind : findEntry t l with _ | g
      · rfl
      · rw [FormatContext.hasFormatter, hfind] at habs
        simp at habs
    simp only [FormatContext.removeFmt, removeEntry_eq_of_find_none t l hnone]
  · simp only [FormatContext.removeFmt]
    rw [removeEntry_eq_of_find_none t _ (find_removeEntry_self t l h)]

theorem format_context_registry_invariants_witness :
    ((FormatContext.mk [(TypeId.boolT, fun _ => trueBytes)]).formatters.map
        Prod.fst).Nodup ∧
    (FormatContext.empty.hasFormatter TypeId.intT = false ∧
      (((FormatContext.mk [(TypeId.boolT, fun _ => trueBytes)]).set TypeId.boolT
          (fun _ => falseBytes)).formatters.map Prod.fst).Nodup ∧
      findEntry TypeId.boolT ((FormatContext.mk [(TypeId.boolT, fun _ => trueBytes)]).set
          TypeId.boolT (fun _ => falseBytes)).formatters = some (fun _ => falseBytes) ∧
      (TypeId.intT ≠ TypeId.boolT →
        findEntry TypeId.intT ((FormatContext.mk [(TypeId.boolT, fun _ => trueBytes)]).set
            TypeId.boolT (fun _ => falseBytes)).formatters =
          findEntry TypeId.intT
            (FormatContext.mk [(TypeId.boolT, fun _ => trueBytes)]).formatters) ∧
      (((FormatContext.mk [(TypeId.boolT, fun _ => trueBytes)]).removeFmt
          TypeId.boolT).formatters.map Prod.fst).Nodup ∧
      ((FormatContext.mk [(TypeId.boolT, fun _ => trueBytes)]).hasFormatter TypeId.boolT
          = false →
        (FormatContext.mk [(TypeId.boolT, fun _ => trueBytes)]).removeFmt TypeId.boolT =
          FormatContext.mk [(TypeId.boolT, fun _ => trueBytes)]) ∧
      ((FormatContext.mk [(TypeId.boolT, fun _ => trueBytes)]).removeFmt
          TypeId.boolT).removeFmt TypeId.boolT =
        (FormatContext.mk [(TypeId.boolT, fun _ => trueBytes)]).removeFmt TypeId.boolT ∧
      ((FormatContext.mk [(TypeId.boolT, fun _ => trueBytes)]).clear).hasFormatter
          TypeId.intT = false) :=
  ⟨by simp, format_context_registry_invariants
    (FormatContext.mk [(TypeId.boolT, fun _ => trueBytes)]) TypeId.boolT TypeId.intT
    (fun _ => falseBytes) (by simp)⟩

/-- C6: a formatter registered in a context for exactly the static type of
the value is invoked and its result returned verbatim; a value of an
unregistered type falls back to the global engine; and the elements nested
inside a composite value of an unregistered type are rendered by the
global engine, whose result never mentions the context. -/
theorem format_context_dispatch (ctx : FormatContext) (v w a b : Val)
    (f : Val → List Nat)
    (hreg : findEntry (typeOf v) ctx.formatters = some f)
    (hmiss : findEntry (typeOf w) ctx.formatters = none)
    (hpair : findEntry (typeOf (Val.vPair a b)) ctx.formatters = none) :
    ctx.toString v = f v ∧
    ctx.toString w = to_string_impl w ∧
    ctx.toString (Val.vPair a b) =
      40 :: (apply_quotation_if_needed a ++ commaSep ++ apply_quotation_if_needed b)
        ++ [41] := by
  refine ⟨?_, ?_, ?_⟩
  · simp only [FormatContext.toString, hreg]
  · simp only [FormatContext.toString, hmiss]
  · simp only [FormatContext.toString, hpair]
    simp [to_string_impl]

theorem format_context_dispatch_witness :
    (findEntry (typeOf (Val.vBool true))
        (FormatContext.mk [(TypeId.boolT, fun _ => [89]), (TypeId.intT, fun _ => [88])]
          ).formatters = some (fun _ => [89]) ∧
      findEntry (typeOf (Val.vStr [104]))
        (FormatContext.mk [(TypeId.boolT, fun _ => [89]), (TypeId.intT, fun _ => [88])]
          ).formatters = none ∧
      findEntry (typeOf (Val.vPair (Val.vInt 1) (Val.vInt 2)))
        (FormatContext.mk [(TypeId.boolT, fun _ => [89]), (TypeId.intT, fun _ => [88])]
          ).formatters = none) ∧
    ((FormatContext.mk [(TypeId.boolT, fun _ => [89]), (TypeId.intT, fun _ => [88])]
        ).toString (Val.vBool true) = (fun (_ : Val) => [89]) (Val.vBool true) ∧
      (FormatContext.mk [(TypeId.boolT, fun _ => [89]), (TypeId.intT, fun _ => [88])]
        ).toString (Val.vStr [104]) = to_string_impl (Val.vStr [104]) ∧
      (FormatContext.mk [(TypeId.boolT, fun _ => [89]), (TypeId.intT, fun _ => [88])]
        ).toString (Val.vPair (Val.vInt 1) (Val.vInt 2)) =
        40 :: (apply_quotation_if_needed (Val.vInt 1) ++ commaSep ++
          apply_quotation_if_needed (Val.vInt 2)) ++ [41]) :=
  ⟨⟨rfl, rfl, rfl⟩, format_context_dispatch
    (FormatContext.mk [(TypeId.boolT, fun _ => [89]), (TypeId.intT, fun _ => [88])])
    (Val.vBool true) (Val.vStr [104]) (Val.vInt 1) (Val.vInt 2) (fun _ => [89])
    rfl rfl rfl⟩

end Ustr
